import Mathlib

/-!
Verification of the plannotator document-review server core against its
natural-language specification.

The development shallowly embeds the request-resolution and
decision-synchronization subsystem of the repository:

* `packages/server/security.ts` : `validatePath`, `sanitizeFilename`,
  `isAllowedImageExtension`, `validateImagePath`;
* `packages/server/storage.ts`  : `generateUniqueSlug`;
* the atomic writer (`atomicWrite`);
* the document server (`startDocServer`): the `/api/doc` linked-document
  handler, the `/api/image` handler, and the `/api/approve` / `/api/feedback`
  handlers together with the one-shot decision promise.

Filesystems are modelled explicitly: the server routes read from an
association list of absolute, normalized file paths to contents (lookups
normalize their argument, mirroring the operating system resolving `.` and
`..` at open time); the atomic writer mutates a total map
`String -> Option String`.  Effectful primitives (`existsSync`, `Date.now`,
the outcome of `Bun.write` / `renameSync` / `unlinkSync`) are passed in as
explicit parameters.
-/

namespace Plannotator

/-! ## String primitives

Kernel-reducible (structurally recursive) counterparts of the JS string
operations the source uses; the corresponding Lean core functions are
defined by well-founded recursion over string positions and do not reduce
definitionally, which would block `decide` on concrete inputs. -/

/-- `split` on a separator character, keeping empty segments (as JS
`"".split` and `"a//b".split` do). -/
def chSplit (sep : Char) : List Char → List (List Char)
  | [] => [[]]
  | c :: rest =>
    match chSplit sep rest with
    | h :: t => if c = sep then [] :: h :: t else (c :: h) :: t
    | [] => if c = sep then [[], []] else [[c]]

/-- `s.split(sep)` as strings. -/
def splitOnSep (sep : Char) (s : String) : List String :=
  (chSplit sep s.toList).map String.mk

/-- JS `s.startsWith(pre)`. -/
def strStartsWith (s pre : String) : Bool :=
  pre.toList.isPrefixOf s.toList

/-- JS `s.includes(c)` for a single character. -/
def strContainsChar (s : String) (c : Char) : Bool :=
  s.toList.contains c

/-- Drop the first `n` characters of `s`. -/
def strDrop (s : String) (n : Nat) : String :=
  String.mk (s.toList.drop n)

/-- Character length of `s`. -/
def strLen (s : String) : Nat :=
  s.toList.length

/-- Join a list of strings with a separator (Node `segments.join("/")`). -/
def joinSep (sep : String) : List String → String
  | [] => ""
  | [x] => x
  | x :: xs => x ++ sep ++ joinSep sep xs

/-! ## Path model: Node.js `path.resolve` on POSIX paths -/

/-- One pass over the `/`-separated segments of an absolute path, in the style
of Node.js path normalization: empty segments and `.` are dropped, `..` pops
the previously accepted segment (and is dropped at the root).  The first
argument accumulates accepted segments in reverse order. -/
def normSegsAux : List String → List String → List String
  | acc, [] => acc.reverse
  | acc, s :: rest =>
    if s = "" ∨ s = "." then normSegsAux acc rest
    else if s = ".." then normSegsAux acc.tail rest
    else normSegsAux (s :: acc) rest

/-- Normalize an absolute POSIX path: collapse duplicate separators, resolve
`.` and `..`, drop any trailing separator.  `normalizeAbs "/" = "/"`. -/
def normalizeAbs (p : String) : String :=
  "/" ++ joinSep "/" (normSegsAux [] (splitOnSep '/' p))

/-- Node.js `path.resolve(base, p)` restricted to the shapes the server uses:
`base` is an absolute directory; if `p` is absolute it is normalized on its
own, otherwise it is joined onto `base` and the join is normalized.
`nodeResolve base p` with one argument in the source (`resolve(p)`) is
modelled by passing the process working directory as `base`. -/
def nodeResolve (base p : String) : String :=
  if strStartsWith p "/" then normalizeAbs p else normalizeAbs (base ++ "/" ++ p)

/-- Final `/`-separated segment of a path (`m.split('/').pop()` in the
source). -/
def lastSeg (p : String) : String :=
  (splitOnSep '/' p).getLastD ""

/-! ## `packages/server/security.ts` -/

/-- The fixed allow-list `ALLOWED_IMAGE_EXTENSIONS` from `security.ts`. -/
def ALLOWED_IMAGE_EXTENSIONS : List String :=
  [".png", ".jpg", ".jpeg", ".gif", ".webp", ".svg", ".bmp", ".ico"]

/-- Node.js `path.extname`: the suffix of the basename from its last dot,
except that a dot in the leading position of the basename (a dotfile) and the
special basenames `.` and `..` yield the empty extension. -/
def extname (p : String) : String :=
  let base := lastSeg p
  let parts := splitOnSep '.' base
  if base = ".." then ""
  else if parts.length ≤ 1 then ""
  else if parts.length = 2 ∧ parts.getD 0 "" = "" then ""
  else "." ++ parts.getLastD ""

/-- ASCII lower-casing, standing in for JS `String.prototype.toLowerCase` on
the extension strings involved here. -/
def lowerAscii (s : String) : String :=
  String.mk (s.toList.map Char.toLower)

/-- `security.ts` `isAllowedImageExtension`: case-insensitive membership of
the extension in the fixed allow-list. -/
def isAllowedImageExtension (filename : String) : Bool :=
  ALLOWED_IMAGE_EXTENSIONS.contains (lowerAscii (extname filename))

/-- `security.ts` `validatePath`: resolve the requested path to an absolute
path (against the process working directory `cwd`), then accept it exactly
when, for some allowed base (itself resolved), it equals the base or starts
with the base followed by the separator.  On rejection the thrown `Error` is
modelled as `Except.error` carrying the source's message. -/
def validatePath (cwd requestedPath : String) (allowedBases : List String) :
    Except String String :=
  if allowedBases.any (fun base =>
      nodeResolve cwd requestedPath == nodeResolve cwd base
        || strStartsWith (nodeResolve cwd requestedPath) (nodeResolve cwd base ++ "/"))
  then Except.ok (nodeResolve cwd requestedPath)
  else Except.error ("Path not allowed: " ++ requestedPath)

/-- `security.ts` `validateImagePath`: path containment composed with the
extension allow-list check. -/
def validateImagePath (cwd imagePath : String) (allowedBases : List String) :
    Except String String :=
  match validatePath cwd imagePath allowedBases with
  | Except.error e => Except.error e
  | Except.ok validated =>
    if isAllowedImageExtension validated then Except.ok validated
    else Except.error ("Invalid image extension: " ++ extname validated)

/-- Step 1 of `sanitizeFilename`, second regex: JS
`replace(/\.\./g, "")` — global, leftmost, non-overlapping removal of `..`
occurrences. -/
def removeDotDot : List Char → List Char
  | '.' :: '.' :: rest => removeDotDot rest
  | c :: rest => c :: removeDotDot rest
  | [] => []

/-- Characters removed by `sanitizeFilename`'s second replacement:
`[\x00-\x1f\x7f<>:"|?*]`. -/
def isDangerousChar (c : Char) : Bool :=
  c.toNat < 32 || c.toNat == 127 || c == '<' || c == '>' || c == ':'
    || c == '"' || c == '|' || c == '?' || c == '*'

/-- Characters trimmed from both ends by `sanitizeFilename`'s third
replacement `^[\s.]+|[\s.]+$`: whitespace or a dot. -/
def isTrimChar (c : Char) : Bool :=
  c == ' ' || c == '\t' || c == '\n' || c == '\r' || c == '\x0b'
    || c == '\x0c' || c == '.'

/-- `security.ts` `sanitizeFilename`: drop `/` and `\`, remove `..`
occurrences, drop control and dangerous characters, trim whitespace and dots
from the ends, and fall back to `"file"` when nothing remains. -/
def sanitizeFilename (filename : String) : String :=
  let s1 := filename.toList.filter (fun c => !(c == '/' || c == '\\'))
  let s2 := removeDotDot s1
  let s3 := s2.filter (fun c => !(isDangerousChar c))
  let s4 := ((s3.dropWhile isTrimChar).reverse.dropWhile isTrimChar).reverse
  if s4.isEmpty then "file" else String.mk s4

/-! ## Server-side filesystem model

The routes read from a finite association list mapping absolute, normalized
POSIX paths of regular files to their contents.  `fsRead` normalizes its
argument before looking it up, which is how the operating system treats `.`
and `..` components at `open` time — `Bun.file(p).exists()` / `.text()` see
the normalized path even when the server never normalized the string `p`. -/

abbrev FileSystem := List (String × String)

/-- Raw lookup by exact key. -/
def fsGet (fs : FileSystem) (p : String) : Option String :=
  (fs.find? (fun e => e.1 == p)).map (fun e => e.2)

/-- Contents visible at path `p`: the OS normalizes `p` before opening. -/
def fsRead (fs : FileSystem) (p : String) : Option String :=
  fsGet fs (normalizeAbs p)

/-- `Bun.file(p).exists()`. -/
def fsExists (fs : FileSystem) (p : String) : Bool :=
  (fsRead fs p).isSome

/-! ## `/api/doc` linked-document resolution (`startDocServer`) -/

/-- Responses produced by the modelled routes, carrying exactly the data the
claims distinguish: a served document (content, reported filepath, read-only
flag), a served raw file, the `{ok:true}` JSON reply, or an error with its
HTTP status and message. -/
inductive ApiResponse where
  | doc (markdown : String) (filepath : String) (readOnly : Bool)
  | file (content : String)
  | jsonOk
  | err (status : Nat) (message : String)
deriving DecidableEq, Repr

/-- The SEC-1 containment test from the `/api/doc` handler, exactly as the
source performs it: a string comparison of the (possibly unnormalized)
resolved path against each base and against base-plus-separator. -/
def containedIn (bases : List String) (p : String) : Bool :=
  bases.any (fun base => p == base || strStartsWith p (base ++ "/"))

/-- Strategy 4 of the handler: `new Bun.Glob("**/" + req).scan({cwd:
projectRoot, onlyFiles: true})` followed by the exact-filename filter and
`resolve(projectRoot, match)`.  In the list model this is: every file whose
(normalized) path lies strictly under `projectRoot` and whose final segment
equals the request. -/
def searchProject (fs : FileSystem) (projectRoot req : String) : List String :=
  (fs.filter (fun e => strStartsWith e.1 (projectRoot ++ "/") && lastSeg e.1 == req)).map
    (fun e => e.1)

/-- `m.replace(projectRoot + '/', '')` in the source.  JS `replace` with a
string pattern replaces the first occurrence; every match produced by
`searchProject` carries `projectRoot ++ "/"` as a prefix, so the first
occurrence is that prefix. -/
def relName (projectRoot m : String) : String :=
  if strStartsWith m (projectRoot ++ "/") then strDrop m (strLen projectRoot + 1) else m

/-- The 400 message built for an ambiguous bare-filename request. -/
def ambiguousMsg (projectRoot req : String) (ms : List String) : String :=
  "Ambiguous filename \x27" ++ req ++ "\x27 - found " ++ toString ms.length
    ++ " matches:\n" ++ joinSep "\n" (ms.map (relName projectRoot))

/-- Outcome of the resolution-strategy cascade, before the SEC-1 check: an
ambiguous bare filename short-circuits with its 400 message, otherwise the
handler reaches the check with a chosen `resolvedPath` and a `found` flag. -/
inductive ResolveOutcome where
  | ambiguous (message : String)
  | chosen (resolvedPath : String) (found : Bool)
deriving DecidableEq, Repr

/-- The resolution strategies of the `/api/doc` linked-document handler, in
source order: (1) an absolute request is used as-is (unnormalized) with an
existence probe; (2) otherwise resolve against the document directory
`baseDir`; (3) then against `projectRoot`; (4) for a bare filename (no `/`),
search the project tree, using a unique match, falling through on zero
matches (with `resolvedPath` still the strategy-2 candidate and `found`
false) and answering 400 on several. -/
def resolveDoc (fs : FileSystem) (baseDir projectRoot req : String) : ResolveOutcome :=
  if strStartsWith req "/" then
    ResolveOutcome.chosen req (fsExists fs req)
  else if fsExists fs (nodeResolve baseDir req) then
    ResolveOutcome.chosen (nodeResolve baseDir req) true
  else if fsExists fs (nodeResolve projectRoot req) then
    ResolveOutcome.chosen (nodeResolve projectRoot req) true
  else if !(strContainsChar req '/') then
    match searchProject fs projectRoot req with
    | [] => ResolveOutcome.chosen (nodeResolve baseDir req) false
    | [m] => ResolveOutcome.chosen m true
    | ms => ResolveOutcome.ambiguous (ambiguousMsg projectRoot req ms)
  else
    ResolveOutcome.chosen (nodeResolve baseDir req) false

/-- The `/api/doc` handler for a linked-document request (`path` supplied):
run the strategy cascade, then the SEC-1 containment check, then the `found`
check, then read and serve the file (linked documents are always read-only).
A read that fails after `found` succeeded surfaces as the handler's catch-all
500. -/
def docRoute (fs : FileSystem) (baseDir projectRoot req : String) : ApiResponse :=
  match resolveDoc fs baseDir projectRoot req with
  | ResolveOutcome.ambiguous msg => ApiResponse.err 400 msg
  | ResolveOutcome.chosen p found =>
    if !(containedIn [baseDir, projectRoot] p) then
      ApiResponse.err 403 "Path traversal attempt blocked"
    else if !found then
      ApiResponse.err 404 ("File not found: " ++ req)
    else
      match fsRead fs p with
      | some c => ApiResponse.doc c p true
      | none => ApiResponse.err 500 "Failed to load file"

/-! ## `/api/image` handler (`startDocServer`) -/

/-- The `/api/image` handler: require a `path` parameter, validate it with
`validatePath` against `["/tmp/plannotator", homedir(), baseDir]`, probe
existence and serve the file.  A `validatePath` rejection is the only error
raised before the read, and its message begins with `Path not allowed`, so
the handler's `message.includes("Path not allowed")` test maps it to 403. -/
def imageRoute (fs : FileSystem) (cwd homeDir baseDir : String)
    (imagePath : Option String) : ApiResponse :=
  match imagePath with
  | none => ApiResponse.err 400 "Missing path parameter"
  | some p =>
    match validatePath cwd p ["/tmp/plannotator", homeDir, baseDir] with
    | Except.error _ => ApiResponse.err 403 "Access denied"
    | Except.ok validated =>
      match fsRead fs validated with
      | none => ApiResponse.err 404 "File not found"
      | some c => ApiResponse.file c

/-! ## Decision broker and the `/api/approve` / `/api/feedback` handlers -/

/-- The decision payload delivered through the decision promise. -/
structure Decision where
  approved : Bool
  feedback : Option String
  annots : Option (List String)
  agentSwitch : Option String
deriving DecidableEq, Repr

/-- State of the decision promise: pending, or settled with its (immutable)
first value.  JS promise semantics: calling `resolve` on a settled promise is
a no-op. -/
inductive BrokerState where
  | pending
  | fulfilled (d : Decision)
deriving DecidableEq, Repr

/-- `resolveDecision(result)`: first fulfillment wins, later calls are
no-ops. -/
def resolveDecision (st : BrokerState) (d : Decision) : BrokerState :=
  match st with
  | BrokerState.pending => BrokerState.fulfilled d
  | BrokerState.fulfilled d0 => BrokerState.fulfilled d0

/-- What `waitForDecision()` delivers to the consumer once the promise has
settled. -/
def awaitDecision : BrokerState → Option Decision
  | BrokerState.pending => none
  | BrokerState.fulfilled d => some d

/-- Parsed body of `POST /api/approve`. -/
structure ApproveBody where
  agentSwitch : Option String
deriving DecidableEq, Repr

/-- The `linkedDocs` field of a feedback body. -/
structure LinkedDocs where
  viewed : List String
  requested : List String
deriving DecidableEq, Repr

/-- Parsed body of `POST /api/feedback`.  Fields the UI may omit are
optional; the handler defaults `feedback` to `""` and `annotations` to
`[]`. -/
structure FeedbackBody where
  feedback : Option String
  annots : Option (List String)
  agentSwitch : Option String
  linkedDocs : Option LinkedDocs
deriving DecidableEq, Repr

/-- The enhanced feedback text built by the `/api/feedback` handler: the raw
feedback, an optional Linked Documents section (requested paths first, then
viewed-only paths, then re-run instructions when anything was requested),
and the fixed changes-requested status envelope naming the reviewed file. -/
def buildEnhancedFeedback (filepath : String) (b : FeedbackBody) : String :=
  let base := b.feedback.getD ""
  let withDocs :=
    match b.linkedDocs with
    | none => base
    | some ld =>
      if 0 < ld.viewed.length ∨ 0 < ld.requested.length then
        let s1 := base ++ "\n\n---\n## Linked Documents\n"
        let s2 := s1 ++ String.join
          (ld.requested.map (fun p => "- " ++ p ++ " **(review requested)**\n"))
        let s3 := s2 ++ String.join
          ((ld.viewed.filter (fun p => !(ld.requested.contains p))).map
            (fun p => "- " ++ p ++ " (viewed only)\n"))
        if 0 < ld.requested.length then
          s3 ++ "\nTo review requested documents, run:\n" ++ String.join
            (ld.requested.map (fun p => "`/plannotator-doc " ++ p ++ "`\n"))
        else s3
      else base
  withDocs ++ "\n---\n**Status: CHANGES REQUESTED**\nAfter applying changes, re-run: `/plannotator-doc "
    ++ filepath ++ "`\n"

/-- The `/api/approve` handler.  `req.json().catch(() => ({}))` turns a
missing, empty or malformed body into the empty object, modelled as
`none`; the broker is then fulfilled as approved with the fixed LGTM
feedback and the reply is `{ok:true}`. -/
def approveHandler (body : Option ApproveBody) (st : BrokerState) :
    ApiResponse × BrokerState :=
  let b := body.getD { agentSwitch := none }
  (ApiResponse.jsonOk,
    resolveDecision st
      { approved := true
        feedback := some "LGTM - no changes needed"
        annots := none
        agentSwitch := b.agentSwitch })

/-- The `/api/feedback` handler.  `req.json()` has no `.catch` here: a
malformed body (`none`) throws, is caught by the handler's `try`, and is
answered with a 500 without touching the broker.  A parsed body fulfills the
broker as not-approved with the enhanced feedback. -/
def feedbackHandler (filepath : String) (body : Option FeedbackBody)
    (st : BrokerState) : ApiResponse × BrokerState :=
  match body with
  | none => (ApiResponse.err 500 "Failed to process feedback", st)
  | some b =>
    (ApiResponse.jsonOk,
      resolveDecision st
        { approved := false
          feedback := some (buildEnhancedFeedback filepath b)
          annots := some (b.annots.getD [])
          agentSwitch := b.agentSwitch })

/-- A fulfillment-relevant request reaching the server: an approve (whose
body may have failed to parse, `none`) or a feedback request (idem). -/
inductive BrokerEvent where
  | approve (body : Option ApproveBody)
  | feedback (filepath : String) (body : Option FeedbackBody)

/-- Dispatch one request against the broker. -/
def brokerStep (st : BrokerState) : BrokerEvent → ApiResponse × BrokerState
  | BrokerEvent.approve b => approveHandler b st
  | BrokerEvent.feedback fp b => feedbackHandler fp b st

/-- Run a sequence of approve/feedback requests in order. -/
def runEvents (st : BrokerState) : List BrokerEvent → BrokerState
  | [] => st
  | e :: rest => runEvents (brokerStep st e).2 rest

/-! ## Atomic writer (`atomicWrite`)

The writer's filesystem is a total map from paths to optional contents.
Failure injection is explicit: `writeOk` is the outcome of `Bun.write` on
the temp file (a failed write may still leave `leftover` bytes in the temp
file), `renameOk` the outcome of `renameSync`, `unlinkOk` the outcome of the
best-effort `unlinkSync` in the catch block.  `mkdirSync` concerns
directories only and is not represented.  `renameSync` is atomic: it either
moves the whole temp file onto the target or changes nothing. -/

abbrev Store := String → Option String

/-- Point update of the store (a completed file write at `p`). -/
def storeSet (s : Store) (p c : String) : Store :=
  fun q => if q = p then some c else s q

/-- Removal of the file at `p` (`unlinkSync`). -/
def storeErase (s : Store) (p : String) : Store :=
  fun q => if q = p then none else s q

/-- The catch block of `atomicWrite`: `if (existsSync(tempPath))
unlinkSync(tempPath)`, with any unlink failure swallowed. -/
def cleanupTemp (s : Store) (temp : String) (unlinkOk : Bool) : Store :=
  if (s temp).isSome then (if unlinkOk then storeErase s temp else s) else s

/-- `atomicWrite(targetPath, content)` with explicit temp-file name and
failure injection.  Success path: write the temp file, rename it onto the
target, return the target path.  On a write or rename failure the original
error is re-raised after best-effort temp cleanup. -/
def atomicWrite (s : Store) (targetPath content tempPath : String)
    (writeOk : Bool) (leftover : String) (renameOk unlinkOk : Bool) :
    Except String String × Store :=
  if writeOk then
    if renameOk then
      (Except.ok targetPath,
        storeSet (storeErase (storeSet s tempPath content) tempPath) targetPath content)
    else
      (Except.error "rename failed",
        cleanupTemp (storeSet s tempPath content) tempPath unlinkOk)
  else
    (Except.error "write failed",
      cleanupTemp (storeSet s tempPath leftover) tempPath unlinkOk)

/-! ## Slug allocation (`packages/server/storage.ts`) -/

/-- `storage.ts` `generateUniqueSlug`, with `existsSync` on the plan
directory abstracted as `fileExists` and `Date.now()` as `nowMs`.  The
source's `while (counter < 1000)` loop starting at 2 probes the counters
2..999 in order; when all are taken it appends the timestamp without a
further existence check. -/
def generateUniqueSlug (baseSlug : String) (fileExists : String → Bool)
    (nowMs : Nat) : String :=
  if !(fileExists (baseSlug ++ ".md")) then baseSlug
  else
    match (List.range' 2 998).find?
        (fun c => !(fileExists (baseSlug ++ "-" ++ toString c ++ ".md"))) with
    | some c => baseSlug ++ "-" ++ toString c
    | none => baseSlug ++ "-" ++ toString nowMs

/-! ## Theorems -/

/-- Claim C5: `validatePath` succeeds, returning the resolved absolute path,
exactly when the resolved path equals some (resolved) base or has that base
followed by the path separator as a prefix; and the sibling path `/a/bc`
sharing only a string prefix with the base `/a/b` is rejected with the
path-not-allowed error. -/
theorem validatePath_containment (cwd req : String) (bases : List String) :
    (validatePath cwd req bases = Except.ok (nodeResolve cwd req)
      ↔ ∃ b ∈ bases, nodeResolve cwd req = nodeResolve cwd b
          ∨ strStartsWith (nodeResolve cwd req) (nodeResolve cwd b ++ "/") = true)
    ∧ (∀ r, validatePath cwd req bases = Except.ok r → r = nodeResolve cwd req)
    ∧ validatePath "/" "/a/bc" ["/a/b"] = Except.error "Path not allowed: /a/bc" := by
  have hcond : (bases.any (fun base =>
      nodeResolve cwd req == nodeResolve cwd base
        || strStartsWith (nodeResolve cwd req) (nodeResolve cwd base ++ "/")) = true)
      ↔ ∃ b ∈ bases, nodeResolve cwd req = nodeResolve cwd b
          ∨ strStartsWith (nodeResolve cwd req) (nodeResolve cwd b ++ "/") = true := by
    simp only [List.any_eq_true, Bool.or_eq_true, beq_iff_eq]
  refine ⟨?_, ?_, rfl⟩
  · unfold validatePath
    split
    next h => exact ⟨fun _ => hcond.mp h, fun _ => rfl⟩
    next h =>
      exact ⟨fun hbad => Except.noConfusion hbad, fun hex => absurd (hcond.mpr hex) h⟩
  · intro r hr
    unfold validatePath at hr
    split at hr
    next => injection hr with h2; exact h2.symm
    next => exact Except.noConfusion hr

/-- Witness for C5: a genuine subdirectory of the base is accepted, through
the right-to-left direction of the characterization. -/
theorem validatePath_containment_witness :
    validatePath "/" "/a/b/c" ["/a/b"] = Except.ok (nodeResolve "/" "/a/b/c") :=
  (validatePath_containment "/" "/a/b/c" ["/a/b"]).1.mpr
    ⟨"/a/b", by decide, Or.inr (by decide)⟩

/-- Claim C6 (evaluation at the failing input): `sanitizeFilename` removes
`..` before stripping the dangerous characters, so stripping can create a
fresh `..`: on `"a.<.b"` the result is `"a..b"`, which contains `..`, and a
second application gives `"ab"`, so the function is not idempotent either. -/
theorem sanitizeFilename_reintroduces_dotdot :
    sanitizeFilename "a.<.b" = "a..b"
    ∧ sanitizeFilename (sanitizeFilename "a.<.b") = "ab"
    ∧ sanitizeFilename (sanitizeFilename "a.<.b") ≠ sanitizeFilename "a.<.b" := by
  refine ⟨by decide, by decide, by decide⟩

/-- Claim C1 (evaluation at the failing input): the `/api/doc` handler
serves an absolute request containing `..` whose normalized resolution lies
outside both allowed bases.  The SEC-1 check runs on the unnormalized string
`"/d/docs/../secret.md"`, which starts with `baseDir ++ "/"`, so the file
`/d/secret.md` — outside `baseDir` and `projectRoot` after normalization —
is served instead of being rejected with the 403 traversal error. -/
theorem docRoute_unnormalized_escape :
    docRoute [("/d/secret.md", "SECRET")] "/d/docs" "/d/proj" "/d/docs/../secret.md"
      = ApiResponse.doc "SECRET" "/d/docs/../secret.md" true
    ∧ normalizeAbs "/d/docs/../secret.md" = "/d/secret.md"
    ∧ containedIn ["/d/docs", "/d/proj"] (normalizeAbs "/d/docs/../secret.md") = false := by
  refine ⟨by decide, by decide, by decide⟩

/-- Claim C2 (evaluation at the failing input): the `/api/image` handler
validates containment with `validatePath` only and never consults the image
extension allow-list, so an existing `.exe` file under the allowed base
`/tmp/plannotator` is served; `validateImagePath` — which the specification
describes for this route — would have rejected the same path. -/
theorem imageRoute_missing_extension_check :
    imageRoute [("/tmp/plannotator/evil.exe", "MZPAYLOAD")] "/" "/home/u" "/d/docs"
        (some "/tmp/plannotator/evil.exe") = ApiResponse.file "MZPAYLOAD"
    ∧ isAllowedImageExtension "/tmp/plannotator/evil.exe" = false
    ∧ validateImagePath "/" "/tmp/plannotator/evil.exe"
        ["/tmp/plannotator", "/home/u", "/d/docs"]
        = Except.error "Invalid image extension: .exe" := by
  refine ⟨by decide, by decide, rfl⟩

/-- Claim C9: in the `/api/doc` linked-document handler the SEC-1
containment check precedes the existence check — whenever the chosen
resolved path fails containment the response is the 403 traversal error,
for any value of the `found` flag (in particular when no file exists). -/
theorem docRoute_traversal_precedes_notfound (fs : FileSystem)
    (baseDir projectRoot req p : String) (found : Bool)
    (hres : resolveDoc fs baseDir projectRoot req = ResolveOutcome.chosen p found)
    (hout : containedIn [baseDir, projectRoot] p = false) :
    docRoute fs baseDir projectRoot req
      = ApiResponse.err 403 "Path traversal attempt blocked" := by
  unfold docRoute
  rw [hres]
  simp [hout]

/-- Witness for C9: a nonexistent absolute path outside both bases is
answered 403, not 404. -/
theorem docRoute_traversal_precedes_notfound_witness :
    docRoute [] "/d/docs" "/d/proj" "/etc/nonexistent.md"
      = ApiResponse.err 403 "Path traversal attempt blocked"
    ∧ fsExists [] "/etc/nonexistent.md" = false :=
  ⟨docRoute_traversal_precedes_notfound [] "/d/docs" "/d/proj" "/etc/nonexistent.md"
      "/etc/nonexistent.md" false (by decide) (by decide),
    by decide⟩

/-- Claim C7: for a bare filename (no separator) missed by the earlier
strategies, the project search finds exactly the files under the project
root whose final segment equals the request; zero matches produce the 404
FileNotFound answer, a unique match is served, and several matches produce
the 400 AmbiguousFilename answer listing every match relative to the
project root. -/
theorem docRoute_bare_search (fs : FileSystem) (baseDir projectRoot req : String)
    (hrel : strStartsWith req "/" = false)
    (hbare : strContainsChar req '/' = false)
    (h2 : fsExists fs (nodeResolve baseDir req) = false)
    (h3 : fsExists fs (nodeResolve projectRoot req) = false) :
    (∀ m ∈ searchProject fs projectRoot req,
        strStartsWith m (projectRoot ++ "/") = true ∧ lastSeg m = req)
    ∧ (∀ e ∈ fs, strStartsWith e.1 (projectRoot ++ "/") = true → lastSeg e.1 = req →
        e.1 ∈ searchProject fs projectRoot req)
    ∧ (searchProject fs projectRoot req = [] →
        containedIn [baseDir, projectRoot] (nodeResolve baseDir req) = true →
        docRoute fs baseDir projectRoot req
          = ApiResponse.err 404 ("File not found: " ++ req))
    ∧ (∀ m, searchProject fs projectRoot req = [m] →
        docRoute fs baseDir projectRoot req
          = match fsRead fs m with
            | some c => ApiResponse.doc c m true
            | none => ApiResponse.err 500 "Failed to load file")
    ∧ (∀ m1 m2 ms, searchProject fs projectRoot req = m1 :: m2 :: ms →
        docRoute fs baseDir projectRoot req
          = ApiResponse.err 400 (ambiguousMsg projectRoot req (m1 :: m2 :: ms))) := by
  have hmemP : ∀ m ∈ searchProject fs projectRoot req,
      strStartsWith m (projectRoot ++ "/") = true ∧ lastSeg m = req := by
    intro m hm
    simp only [searchProject, List.mem_map, List.mem_filter, Bool.and_eq_true,
      beq_iff_eq] at hm
    obtain ⟨e, ⟨_, hp, hl⟩, rfl⟩ := hm
    exact ⟨hp, hl⟩
  refine ⟨hmemP, ?_, ?_, ?_, ?_⟩
  · intro e he hp hl
    simp only [searchProject, List.mem_map, List.mem_filter, Bool.and_eq_true, beq_iff_eq]
    exact ⟨e, ⟨he, hp, hl⟩, rfl⟩
  · intro hz hcont
    simp [docRoute, resolveDoc, hrel, h2, h3, hbare, hz, hcont]
  · intro m hm1
    have hcontm : containedIn [baseDir, projectRoot] m = true := by
      have hpre := (hmemP m (by rw [hm1]; exact List.Mem.head _)).1
      simp [containedIn, hpre]
    cases hfr : fsRead fs m with
    | some c => simp [docRoute, resolveDoc, hrel, h2, h3, hbare, hm1, hcontm, hfr]
    | none => simp [docRoute, resolveDoc, hrel, h2, h3, hbare, hm1, hcontm, hfr]
  · intro m1 m2 ms hm2
    simp [docRoute, resolveDoc, hrel, h2, h3, hbare, hm2]

/-- Witness for C7 (the specification's scenario): with `a/x.md` and
`b/x.md` under the project root, requesting the bare `x.md` is answered 400
with both relative paths listed, while requesting `a/x.md` directly is
served. -/
theorem docRoute_bare_search_witness :
    docRoute [("/p/a/x.md", "A"), ("/p/b/x.md", "B")] "/p/docs" "/p" "x.md"
      = ApiResponse.err 400 (ambiguousMsg "/p" "x.md" ["/p/a/x.md", "/p/b/x.md"])
    ∧ ambiguousMsg "/p" "x.md" ["/p/a/x.md", "/p/b/x.md"]
      = "Ambiguous filename \x27x.md\x27 - found 2 matches:\na/x.md\nb/x.md"
    ∧ docRoute [("/p/a/x.md", "A"), ("/p/b/x.md", "B")] "/p/docs" "/p" "a/x.md"
      = ApiResponse.doc "A" "/p/a/x.md" true := by
  refine ⟨?_, by decide, by decide⟩
  exact (docRoute_bare_search [("/p/a/x.md", "A"), ("/p/b/x.md", "B")] "/p/docs" "/p" "x.md"
    (by decide) (by decide) (by decide) (by decide)).2.2.2.2
    "/p/a/x.md" "/p/b/x.md" [] (by decide)

/-- A settled decision promise is absorbing: no later request sequence
changes it. -/
theorem runEvents_fulfilled (d : Decision) (evs : List BrokerEvent) :
    runEvents (BrokerState.fulfilled d) evs = BrokerState.fulfilled d := by
  induction evs with
  | nil => rfl
  | cons e rest ih =>
    cases e with
    | approve b =>
      simpa [runEvents, brokerStep, approveHandler, resolveDecision] using ih
    | feedback fp b =>
      cases b with
      | none => simpa [runEvents, brokerStep, feedbackHandler] using ih
      | some fb =>
        simpa [runEvents, brokerStep, feedbackHandler, resolveDecision] using ih

/-- Claim C3: once the broker has been fulfilled by a first approve or
feedback request, every later sequence of fulfillment attempts leaves the
decision observed by the awaiting consumer equal to the first payload, while
any approve attempt (even with a malformed body) and any feedback attempt
whose body parsed are still answered `{ok:true}`. -/
theorem broker_single_fulfillment (e1 : BrokerEvent) (d : Decision)
    (h : (brokerStep BrokerState.pending e1).2 = BrokerState.fulfilled d)
    (evs : List BrokerEvent) :
    awaitDecision (runEvents (brokerStep BrokerState.pending e1).2 evs) = some d
    ∧ (∀ (st : BrokerState) (b : Option ApproveBody),
        (brokerStep st (BrokerEvent.approve b)).1 = ApiResponse.jsonOk)
    ∧ (∀ (st : BrokerState) (fp : String) (fb : FeedbackBody),
        (brokerStep st (BrokerEvent.feedback fp (some fb))).1 = ApiResponse.jsonOk) := by
  refine ⟨?_, fun st b => rfl, fun st fp fb => rfl⟩
  rw [h, runEvents_fulfilled]
  rfl

/-- Witness for C3: an approve settles the broker, and a later well-formed
feedback request does not change the delivered decision. -/
theorem broker_single_fulfillment_witness :
    awaitDecision (runEvents
        (brokerStep BrokerState.pending (BrokerEvent.approve none)).2
        [BrokerEvent.feedback "doc.md" (some
          { feedback := some "please change", annots := some ["a1"],
            agentSwitch := some "builder", linkedDocs := none })])
      = some { approved := true, feedback := some "LGTM - no changes needed",
               annots := none, agentSwitch := none } :=
  (broker_single_fulfillment (BrokerEvent.approve none)
    { approved := true, feedback := some "LGTM - no changes needed",
      annots := none, agentSwitch := none } rfl
    [BrokerEvent.feedback "doc.md" (some
      { feedback := some "please change", annots := some ["a1"],
        agentSwitch := some "builder", linkedDocs := none })]).1

/-- Claim C10: `/api/approve` never fails on its body — any body, including
a missing or malformed one (parsed as the empty object), is answered
`{ok:true}`; the empty body fulfills the broker as approved with the fixed
LGTM feedback and no agent switch; `/api/feedback` instead answers 500 on a
malformed body without touching the broker. -/
theorem approve_tolerates_malformed_body :
    (∀ (st : BrokerState) (b : Option ApproveBody),
        (approveHandler b st).1 = ApiResponse.jsonOk)
    ∧ (∀ st : BrokerState, approveHandler none st
        = (ApiResponse.jsonOk, resolveDecision st
            { approved := true, feedback := some "LGTM - no changes needed",
              annots := none, agentSwitch := none }))
    ∧ (approveHandler none BrokerState.pending).2
        = BrokerState.fulfilled
            { approved := true, feedback := some "LGTM - no changes needed",
              annots := none, agentSwitch := none }
    ∧ (∀ (st : BrokerState) (fp : String),
        feedbackHandler fp none st
          = (ApiResponse.err 500 "Failed to process feedback", st)) :=
  ⟨fun _ _ => rfl, fun _ => rfl, rfl, fun _ _ => rfl⟩

/-- Claim C4: on success the target holds exactly the written content; on a
write or rename failure the target keeps its prior mapping (absent or prior
content, never partial), the original failure is re-raised unchanged, and a
successful best-effort unlink leaves no temp file (an unlink failure is
swallowed without masking the original error). -/
theorem atomicWrite_spec (s : Store) (targetPath content tempPath leftover : String)
    (writeOk renameOk unlinkOk : Bool) (hne : tempPath ≠ targetPath) :
    (writeOk = true → renameOk = true →
        (atomicWrite s targetPath content tempPath writeOk leftover renameOk unlinkOk).1
          = Except.ok targetPath
        ∧ (atomicWrite s targetPath content tempPath writeOk leftover renameOk unlinkOk).2
            targetPath = some content)
    ∧ (writeOk = true → renameOk = false →
        (atomicWrite s targetPath content tempPath writeOk leftover renameOk unlinkOk).1
          = Except.error "rename failed"
        ∧ (atomicWrite s targetPath content tempPath writeOk leftover renameOk unlinkOk).2
            targetPath = s targetPath
        ∧ (unlinkOk = true →
            (atomicWrite s targetPath content tempPath writeOk leftover renameOk unlinkOk).2
              tempPath = none))
    ∧ (writeOk = false →
        (atomicWrite s targetPath content tempPath writeOk leftover renameOk unlinkOk).1
          = Except.error "write failed"
        ∧ (atomicWrite s targetPath content tempPath writeOk leftover renameOk unlinkOk).2
            targetPath = s targetPath
        ∧ (unlinkOk = true →
            (atomicWrite s targetPath content tempPath writeOk leftover renameOk unlinkOk).2
              tempPath = none)) := by
  have hnt : ¬ targetPath = tempPath := fun hh => hne hh.symm
  refine ⟨?_, ?_, ?_⟩
  · intro hw hr
    subst hw; subst hr
    exact ⟨rfl, by simp [atomicWrite, storeSet, storeErase]⟩
  · intro hw hr
    subst hw; subst hr
    refine ⟨rfl, ?_, ?_⟩
    · cases unlinkOk <;> simp [atomicWrite, cleanupTemp, storeSet, storeErase, hnt]
    · intro hu
      subst hu
      simp [atomicWrite, cleanupTemp, storeSet, storeErase]
  · intro hw
    subst hw
    refine ⟨rfl, ?_, ?_⟩
    · cases unlinkOk <;> simp [atomicWrite, cleanupTemp, storeSet, storeErase, hnt]
    · intro hu
      subst hu
      simp [atomicWrite, cleanupTemp, storeSet, storeErase]

/-- Witness for C4: a fault-free atomic write over an empty store succeeds
and a read of the target yields exactly the written content. -/
theorem atomicWrite_spec_witness :
    (atomicWrite (fun _ => none) "/plans/p.md" "content" "/plans/.tmp-1" true "" true true).1
      = Except.ok "/plans/p.md"
    ∧ (atomicWrite (fun _ => none) "/plans/p.md" "content" "/plans/.tmp-1" true "" true true).2
        "/plans/p.md" = some "content" :=
  (atomicWrite_spec (fun _ => none) "/plans/p.md" "content" "/plans/.tmp-1" ""
    true true true (by decide)).1 rfl rfl

/-- Claim C8, amended: `generateUniqueSlug` always terminates (it is a total
function), and whenever the timestamp-fallback name is itself not taken the
returned slug has no existing file — the base and counter paths are
existence-checked, the fallback is not. -/
theorem generateUniqueSlug_fresh (baseSlug : String) (fileExists : String → Bool)
    (nowMs : Nat)
    (hfb : fileExists (baseSlug ++ "-" ++ toString nowMs ++ ".md") = false) :
    fileExists (generateUniqueSlug baseSlug fileExists nowMs ++ ".md") = false := by
  unfold generateUniqueSlug
  cases hb : fileExists (baseSlug ++ ".md") with
  | false => simp [hb]
  | true =>
    cases hf : (List.range' 2 998).find?
        (fun c => !(fileExists (baseSlug ++ "-" ++ toString c ++ ".md"))) with
    | none => simp [hb, hf, hfb]
    | some c =>
      have hc : fileExists (baseSlug ++ "-" ++ toString c ++ ".md") = false := by
        simpa using List.find?_some hf
      simp [hb, hf, hc]

/-- Witness for the amended C8: with only `plan.md` taken, the returned slug
is fresh. -/
theorem generateUniqueSlug_fresh_witness :
    (fun s => s == "plan.md" : String → Bool)
        (generateUniqueSlug "plan" (fun s => s == "plan.md") 5 ++ ".md") = false
    ∧ generateUniqueSlug "plan" (fun s => s == "plan.md") 5 = "plan-2" :=
  ⟨generateUniqueSlug_fresh "plan" (fun s => s == "plan.md") 5 (by decide), by decide⟩

set_option maxRecDepth 40000 in
/-- Counterexample to C8 as stated: in a directory where every candidate
name exists (base, all counters 2–999, and the timestamp variant), the
function returns the timestamp slug even though its file exists — the
fallback is returned without an existence check. -/
theorem generateUniqueSlug_can_collide :
    generateUniqueSlug "plan" (fun _ => true) 7 = "plan-7"
    ∧ (fun _ => true : String → Bool) ("plan-7" ++ ".md") = true :=
  ⟨by decide, rfl⟩

end Plannotator
